import Mathlib

/-!
Shallow embedding of the change-orchestration core of the Visualizer
repository: the file-backed ChangeQueue (request store), the beads-style
subject memory store, the instance registry, and the two socket connection
handlers (MCP server and standalone server).

Modelling conventions:
* A persisted JSON object (the change-queue file, the registry file) is a
  list of key-value pairs in property order.  ECMAScript enumerates object
  properties with integer-index keys first, in ascending numeric order,
  followed by the remaining string keys in insertion order; `sortKeys`
  models that order, and the read write cycle through
  `JSON.parse` / `Object.entries` / `Object.fromEntries` / `JSON.stringify`
  applies it.
* A JavaScript `Map` is a list of key-value pairs in insertion order;
  `Map.set` on an existing key updates the value in place, otherwise it
  appends.
* All embedded functions are total; source operations that catch their own
  exceptions are modelled by explicit result fields.
-/

/-- Whether a character is a decimal digit. -/
def isDigitChar (c : Char) : Bool :=
  decide (48 ≤ c.toNat) && decide (c.toNat ≤ 57)

/-- The numeric value of a list of decimal digit characters. -/
def natOfDigits (l : List Char) : Nat :=
  l.foldl (fun n c => n * 10 + (c.toNat - 48)) 0

/-- Parse a nonempty all-digit string as a natural number. -/
def decimalNat? (s : String) : Option Nat :=
  if !s.data.isEmpty && s.data.all isDigitChar then some (natOfDigits s.data)
  else none

/-- An ECMAScript array-index property key: the canonical decimal string of
a natural number strictly below 2^32 - 1. -/
def isArrayIndexKey (s : String) : Bool :=
  match decimalNat? s with
  | some n => decide (n < 4294967295) && decide (toString n = s)
  | none => false

/-- Numeric value of a key, used to order array-index keys. -/
def keyNat (s : String) : Nat :=
  (decimalNat? s).getD 0

/-- Property order of a JavaScript object holding these key-value pairs:
array-index keys first in ascending numeric order, then the other keys in
insertion order. -/
def sortKeys (l : List (String × α)) : List (String × α) :=
  (List.insertionSort (fun p q => keyNat p.1 ≤ keyNat q.1)
      (l.filter fun p => isArrayIndexKey p.1))
    ++ l.filter fun p => !isArrayIndexKey p.1

/-- `Map.set`: update in place when the key is present, append otherwise. -/
def mapSet [BEq κ] (m : List (κ × α)) (k : κ) (v : α) : List (κ × α) :=
  if m.any fun p => p.1 == k then
    m.map fun p => if p.1 == k then (k, v) else p
  else
    m ++ [(k, v)]

/-- `Map.get`: the value stored under the first occurrence of the key. -/
def mapLookup [BEq κ] (m : List (κ × α)) (k : κ) : Option α :=
  match m.find? fun p => p.1 == k with
  | some p => some p.2
  | none => none

/-- Status values of a Change record (part_003, interface VisualChange). -/
inductive Status where
  | draft
  | staged
  | confirmed
  | applied
  | failed
deriving Repr, DecidableEq

/-- The element descriptor stored inside a Change (part_003). -/
structure ElementDesc where
  selector : String
  tag : String
  domId : Option String
  classes : List String
  computedStyles : List (String × String)
  sourceHint : Option String
  smartSummary : Option String
  screenshot : Option String
deriving Repr, DecidableEq

/-- A Change record of the request store (part_003, interface VisualChange). -/
structure VisualChange where
  id : String
  element : ElementDesc
  feedback : String
  visualAdjustments : List (String × String)
  cssFramework : String
  originalUnits : List (String × String)
  timestamp : String
  status : Status
  failureReason : Option String
  retryCount : Option Nat
deriving Repr, DecidableEq

/-- The change-queue backing file: a JSON object mapping id to record,
in property order. -/
abbrev QState := List (String × VisualChange)

/-- Well-formed store state: a JSON object holds each key at most once. -/
def QWF (st : QState) : Prop :=
  (st.map Prod.fst).Nodup

/-- ChangeQueue.readChanges (part_003 lines 41-52): parse the file and build
a Map from its entries.  The entry order seen by the Map is the property
order of the parsed object. -/
def ChangeQueue.readChanges (st : QState) : QState :=
  sortKeys st

/-- ChangeQueue.writeChanges (part_003 lines 55-62), success path: serialize
the map back through Object.fromEntries / JSON.stringify, which stores the
entries in object property order. -/
def ChangeQueue.writeChanges (m : QState) : QState :=
  sortKeys m

/-- ChangeQueue.add (part_003 lines 65-72): read, set the record under its
id with retryCount forced to 0, write. -/
def ChangeQueue.add (st : QState) (c : VisualChange) : QState :=
  ChangeQueue.writeChanges
    (mapSet (ChangeQueue.readChanges st) c.id { c with retryCount := some 0 })

/-- ChangeQueue.get (part_003 lines 75-78). -/
def ChangeQueue.get (st : QState) (id : String) : Option VisualChange :=
  mapLookup (ChangeQueue.readChanges st) id

/-- ChangeQueue.getPending (part_003 lines 81-89): all records when
includeApplied, else those with status confirmed or failed. -/
def ChangeQueue.getPending (st : QState) (includeApplied : Bool) : List VisualChange :=
  ((ChangeQueue.readChanges st).map Prod.snd).filter fun change =>
    if includeApplied then true
    else change.status == Status.confirmed || change.status == Status.failed

/-- Result of a mutating queue operation: the resulting file state, the
boolean the operation returns, and whether writeChanges was invoked. -/
structure MarkOut where
  state : QState
  found : Bool
  wrote : Bool
deriving Repr, DecidableEq

/-- ChangeQueue.markApplied (part_003 lines 92-101): set status to applied
and write when the id is present; otherwise return false without writing. -/
def ChangeQueue.markApplied (st : QState) (id : String) : MarkOut :=
  match mapLookup (ChangeQueue.readChanges st) id with
  | some c =>
      { state := ChangeQueue.writeChanges
          (mapSet (ChangeQueue.readChanges st) id { c with status := Status.applied })
        found := true
        wrote := true }
  | none => { state := st, found := false, wrote := false }

/-- ChangeQueue.markFailed (part_003 lines 104-115): set status to failed,
overwrite failureReason, increment retryCount, and write when the id is
present; otherwise return false without writing. -/
def ChangeQueue.markFailed (st : QState) (id : String) (reason : Option String) : MarkOut :=
  match mapLookup (ChangeQueue.readChanges st) id with
  | some c =>
      { state := ChangeQueue.writeChanges (mapSet (ChangeQueue.readChanges st) id
          { c with status := Status.failed
                   failureReason := reason
                   retryCount := some ((c.retryCount.getD 0) + 1) })
        found := true
        wrote := true }
  | none => { state := st, found := false, wrote := false }

/-- ChangeQueue.remove (part_003 lines 118-125): Map.delete, followed by a
write only when the key existed. -/
def ChangeQueue.remove (st : QState) (id : String) : MarkOut :=
  if (ChangeQueue.readChanges st).any fun p => p.1 == id then
    { state := ChangeQueue.writeChanges
        ((ChangeQueue.readChanges st).filter fun p => p.1 != id)
      found := true
      wrote := true }
  else
    { state := st, found := false, wrote := false }

/-- ChangeQueue.clear (part_003 lines 128-130): write an empty map. -/
def ChangeQueue.clear : QState :=
  ChangeQueue.writeChanges []

/-- Outcome of ChangeQueue.add including the failure path of writeChanges:
`raised` records whether an exception escaped to the caller of add, and
`storeLogged` whether writeChanges caught a write error and logged it
internally (part_003 lines 59-61: the catch block). -/
structure AddOut where
  state : QState
  raised : Bool
  storeLogged : Bool
deriving Repr, DecidableEq

/-- ChangeQueue.writeChanges with an explicit medium: when the file is not
writable, writeFileSync throws, the catch block logs the error, and the file
keeps its previous contents.  The caller of writeChanges never sees the
exception. -/
def ChangeQueue.writeChangesFallible (writable : Bool) (st : QState) (m : QState) :
    QState × Bool :=
  if writable then (sortKeys m, false) else (st, true)

/-- ChangeQueue.add over a possibly unwritable medium.  add itself has no
try/catch and returns void; since readChanges and writeChanges both catch
their own errors, add never raises. -/
def ChangeQueue.addFallible (writable : Bool) (st : QState) (c : VisualChange) : AddOut :=
  let m := mapSet (ChangeQueue.readChanges st) c.id { c with retryCount := some 0 }
  let r := ChangeQueue.writeChangesFallible writable st m
  { state := r.1, raised := false, storeLogged := r.2 }

/-!
Subject memory store (beads), from part_004 lines 62-167.
-/

/-- The light element descriptor used by the beads store (part_004). -/
structure BeadElement where
  tag : String
  domId : Option String
  classes : List String
  selector : Option String
deriving Repr, DecidableEq

/-- JavaScript falsy-or on an optional string: null, undefined and the
empty string all fall through to the default. -/
def jsOr (a : Option String) (b : String) : String :=
  match a with
  | some s => if s = "" then b else s
  | none => b

/-- Default Array.prototype.sort on strings: comparison order. -/
def jsSortStrings (l : List String) : List String :=
  List.insertionSort (fun a b => a ≤ b) l

/-- UTF-16 code units of a string, as charCodeAt enumerates them. -/
def utf16Units (s : String) : List Nat :=
  s.data.foldr
    (fun c acc =>
      let n := c.toNat
      if n < 65536 then n :: acc
      else (55296 + (n - 65536) / 1024) :: (56320 + (n - 65536) % 1024) :: acc)
    []

/-- ToInt32: reduce an integer to the 32-bit two-complement range. -/
def toInt32 (n : Int) : Int :=
  let m := n % 4294967296
  if m < 2147483648 then m else m - 4294967296

/-- One iteration of the hash loop in generateElementId (part_004 lines
87-91): hash = ((hash << 5) - hash) + char, then hash = hash & hash. -/
def hashStep (h : Int) (c : Nat) : Int :=
  toInt32 (toInt32 (h * 32) - h + (c : Int))

/-- The complete hash loop over a key string. -/
def hashString (s : String) : Int :=
  (utf16Units s).foldl hashStep 0

/-- Math.abs(hash).toString(16).slice(0, 8). -/
def hashHex8 (h : Int) : String :=
  ((Nat.toDigits 16 h.natAbs).take 8).asString

/-- generateElementId (part_004 lines 78-93): hash of
tag | id | sorted classes joined by dots | selector. -/
def generateElementId (e : BeadElement) : String :=
  let key := String.intercalate "|"
    [e.tag, (jsOr e.domId ""), String.intercalate "." (jsSortStrings e.classes),
      (jsOr e.selector "")]
  "el-" ++ hashHex8 (hashString key)

/-- One entry of a bead history (part_004 lines 129-134). -/
structure BeadEntry where
  taskId : String
  feedback : String
  timestamp : String
  success : Bool
deriving Repr, DecidableEq

/-- A bead file: per-subject element memory (part_004 lines 117-126). -/
structure Bead where
  beadId : String
  element : BeadElement
  changes : List BeadEntry
deriving Repr, DecidableEq

/-- saveElementBead (part_004 lines 112-144): load or lazily create the
bead, append the new history entry, and keep only the last 10 entries. -/
def saveElementBead (existing : Option Bead) (e : BeadElement)
    (feedback taskId now : String) (success : Bool) : Bead :=
  let bead := existing.getD { beadId := generateElementId e, element := e, changes := [] }
  let cs := bead.changes ++ [{ taskId := taskId, feedback := feedback,
                               timestamp := now, success := success }]
  { bead with changes := if 10 < cs.length then cs.drop (cs.length - 10) else cs }

/-!
Instance registry, from part_002 lines 164-230 and the /servers handler at
lines 521-544.  The registry file maps process-id keys to ServerEntry
records; liveness of a process id is probed with signal zero, modelled here
by an explicit alive predicate.
-/

/-- A discovery record for one running server (part_002 lines 172-179). -/
structure ServerEntry where
  token : String
  projectPath : String
  projectName : String
  port : Nat
  pid : Nat
  startedAt : String
deriving Repr, DecidableEq

/-- The registry file contents, keyed by process id. -/
abbrev Registry := List (Nat × ServerEntry)

/-- The stale-entry sweep both registerServer and the /servers handler run:
drop every entry whose process id is no longer alive. -/
def pruneStale (alive : Nat → Bool) (r : Registry) : Registry :=
  r.filter fun p => alive p.1

/-- registerServer (part_002 lines 181-218): prune stale entries, then
upsert the current process entry, then write.  Registry objects are keyed
by pid strings, which are all distinct canonical numerals, so Nat keys are
used directly. -/
def registerServer (alive : Nat → Bool) (r : Registry) (selfPid : Nat)
    (token : String) (port : Nat) (projectPath projectName startedAt : String) : Registry :=
  mapSet (pruneStale alive r) selfPid
    { token := token, projectPath := projectPath, projectName := projectName,
      port := port, pid := selfPid, startedAt := startedAt }

/-- unregisterServer (part_002 lines 220-230): delete the current process
entry and write; no stale-entry sweep is performed. -/
def unregisterServer (r : Registry) (selfPid : Nat) : Registry :=
  r.filter fun p => p.1 != selfPid

/-- The GET /servers handler (part_002 lines 521-544): read the registry,
drop stale entries, write the cleaned table back, and return it. -/
def serversRead (alive : Nat → Bool) (r : Registry) : Registry :=
  pruneStale alive r

/-!
Socket connection handling.  part_002 lines 418-446 is the MCP server: it
reads the token from the connection URL and closes mismatched connections
with code 1008 before installing the message handler.  part_004 lines
412-457 is the standalone server: it installs the message handler on every
connection and never inspects a token (its /status endpoint reports
requiresToken false).
-/

/-- The element carried in a visual_feedback payload. -/
structure PayloadElement where
  selector : String
  tag : String
  domId : Option String
  classes : Option (List String)
  computedStyles : List (String × String)
  screenshot : Option String
deriving Repr, DecidableEq

/-- The payload of a visual_feedback message. -/
structure FeedbackPayload where
  payloadId : Option String
  feedback : String
  element : PayloadElement
  projectPath : String
  pageUrl : Option String
  model : Option String
deriving Repr, DecidableEq

/-- Inbound socket messages relevant to change creation. -/
inductive ExtMsg where
  | ping
  | visualFeedback (p : FeedbackPayload)
  | getTasks
  | malformed
deriving Repr, DecidableEq

/-- handleExtensionMessage (part_002 lines 586-665), restricted to its
effect on the request store: a visual_feedback message builds a Change with
status confirmed and adds it to the queue; every other message leaves the
queue untouched. -/
def handleExtensionMessage (now : String) (st : QState) (m : ExtMsg) : QState :=
  match m with
  | ExtMsg.visualFeedback p =>
      let taskId := jsOr p.payloadId now
      let change : VisualChange :=
        { id := taskId
          element :=
            { selector := p.element.selector
              tag := p.element.tag
              domId := p.element.domId
              classes := p.element.classes.getD []
              computedStyles := p.element.computedStyles
              sourceHint := none
              smartSummary := none
              screenshot := p.element.screenshot }
          feedback := p.feedback
          visualAdjustments := []
          cssFramework := ""
          originalUnits := []
          timestamp := now
          status := Status.confirmed
          failureReason := none
          retryCount := none }
      ChangeQueue.add st change
  | _ => st

/-- A connection attempt: the token query parameter of the handshake URL
and the messages subsequently sent on the socket. -/
structure ConnAttempt where
  token : Option String
  messages : List ExtMsg
deriving Repr, DecidableEq

/-- Outcome of a connection on the MCP server: the close code, if the
server closed the connection at the handshake, and the resulting request
store state. -/
structure McpConnOutcome where
  closeCode : Option (Nat × String)
  state : QState
deriving Repr, DecidableEq

/-- The MCP server connection handler (part_002 lines 418-446): a token
differing from the server token is rejected with close code 1008 and the
message handler is never installed; otherwise every message is handled. -/
def mcpConnection (serverToken : String) (now : String) (st : QState)
    (conn : ConnAttempt) : McpConnOutcome :=
  if conn.token = some serverToken then
    { closeCode := none
      state := conn.messages.foldl (handleExtensionMessage now) st }
  else
    { closeCode := some (1008, "Invalid token"), state := st }

/-- A task record of the standalone server (part_004 lines 437-456). -/
structure STask where
  id : String
  feedback : String
  tag : String
  classes : List String
  selector : String
  domId : Option String
  projectPath : String
  model : String
  status : String
  startedAt : String
deriving Repr, DecidableEq

/-- The standalone server task map (tasks.json), in insertion order. -/
abbrev TaskMap := List (String × STask)

/-- addTask (part_004 lines 217-224): set under the task id, then evict
the oldest entry when the map exceeds 50 tasks, then save. -/
def addTask (ts : TaskMap) (t : STask) : TaskMap :=
  let m := mapSet ts t.id t
  if 50 < m.length then
    match m with
    | [] => m
    | p :: _ => m.filter fun q => q.1 != p.1
  else m

/-- The standalone server message handler (part_004 lines 415-457),
restricted to its effect on the task store: a visual_feedback message
creates a task record with status processing. -/
def standaloneHandleMessage (now : String) (ts : TaskMap) (m : ExtMsg) : TaskMap :=
  match m with
  | ExtMsg.visualFeedback p =>
      let taskId := jsOr p.payloadId now
      let selectedModel := jsOr p.model "claude-opus-4-5-20251101"
      addTask ts
        { id := taskId
          feedback := p.feedback
          tag := p.element.tag
          classes := p.element.classes.getD []
          selector := p.element.selector
          domId := p.element.domId
          projectPath := p.projectPath
          model := selectedModel
          status := "processing"
          startedAt := now }
  | _ => ts

/-- Outcome of a connection on the standalone server. -/
structure StandaloneConnOutcome where
  closeCode : Option (Nat × String)
  tasks : TaskMap
deriving Repr, DecidableEq

/-- The standalone server connection handler (part_004 lines 412-457): the
message handler is installed unconditionally; the connection URL is never
inspected, so no token comparison and no handshake rejection occurs. -/
def standaloneConnection (now : String) (ts : TaskMap)
    (conn : ConnAttempt) : StandaloneConnOutcome :=
  { closeCode := none
    tasks := conn.messages.foldl (standaloneHandleMessage now) ts }

/-!
Operation sequences over the request store, for the whole-store invariants.
-/

/-- One request-store operation. -/
inductive QOp where
  | add (c : VisualChange)
  | markApplied (id : String)
  | markFailed (id : String) (reason : Option String)
  | remove (id : String)
  | clear
deriving Repr, DecidableEq

/-- Apply one operation to the backing file state. -/
def applyOp (st : QState) : QOp → QState
  | QOp.add c => ChangeQueue.add st c
  | QOp.markApplied id => (ChangeQueue.markApplied st id).state
  | QOp.markFailed id r => (ChangeQueue.markFailed st id r).state
  | QOp.remove id => (ChangeQueue.remove st id).state
  | QOp.clear => ChangeQueue.clear

/-- Run a sequence of operations from the empty store. -/
def runOps (ops : List QOp) : QState :=
  ops.foldl applyOp []

/-- Specification fold for the surviving id set: ids ever added, minus ids
later removed, minus everything present at a clear. -/
def aliveStep (A : Finset String) : QOp → Finset String
  | QOp.add c => insert c.id A
  | QOp.remove id => A.erase id
  | QOp.clear => ∅
  | QOp.markApplied _ => A
  | QOp.markFailed _ _ => A

/-- The id set the specification predicts after an operation sequence. -/
def aliveIds (ops : List QOp) : Finset String :=
  ops.foldl aliveStep ∅

/-- The ids passed to add in a sequence, in order. -/
def addedIds (ops : List QOp) : List String :=
  ops.filterMap fun op =>
    match op with
    | QOp.add c => some c.id
    | _ => none

/-- Specification fold for insertion order: the ordered id list, new ids
appended at the end, re-added ids keeping their position. -/
def insStep (l : List String) : QOp → List String
  | QOp.add c => if c.id ∈ l then l else l ++ [c.id]
  | QOp.remove id => l.erase id
  | QOp.clear => []
  | QOp.markApplied _ => l
  | QOp.markFailed _ _ => l

/-- The insertion-order id list the specification predicts. -/
def insOrder (ops : List QOp) : List String :=
  ops.foldl insStep []

/-- The set of ids stored in the backing file. -/
def keysFinset (st : QState) : Finset String :=
  (st.map Prod.fst).toFinset

/-- Every stored record carries its own key as its id field. -/
def QInv (st : QState) : Prop :=
  ∀ p ∈ st, p.2.id = p.1

instance decidableQWF (st : QState) : Decidable (QWF st) :=
  inferInstanceAs (Decidable ((st.map Prod.fst).Nodup))

/-!
Concrete sample data used by closed witness and counterexample statements.
-/

/-- A concrete element descriptor. -/
def sampleElement : ElementDesc :=
  { selector := ".cta", tag := "button", domId := none, classes := ["cta"],
    computedStyles := [], sourceHint := none, smartSummary := none, screenshot := none }

/-- A concrete change record with a chosen id and status. -/
def sampleChange (id : String) (status : Status) : VisualChange :=
  { id := id, element := sampleElement, feedback := "make button blue",
    visualAdjustments := [], cssFramework := "", originalUnits := [],
    timestamp := "t0", status := status, failureReason := none, retryCount := some 7 }

/-- A concrete visual_feedback payload. -/
def samplePayload : FeedbackPayload :=
  { payloadId := some "task-1", feedback := "make button blue",
    element := { selector := ".cta", tag := "button", domId := none,
                 classes := some ["cta"], computedStyles := [], screenshot := none },
    projectPath := "/tmp/proj", pageUrl := none, model := none }

/-- A concrete bead history entry. -/
def sampleBeadEntry (n : Nat) : BeadEntry :=
  { taskId := toString n, feedback := "f", timestamp := "t", success := true }

/-- A concrete ten-entry bead history. -/
def tenEntries : List BeadEntry :=
  (List.range 10).map sampleBeadEntry

/-- A concrete bead element. -/
def sampleBeadElement (classes : List String) : BeadElement :=
  { tag := "button", domId := some "cta-main", classes := classes,
    selector := some ".cta" }

/-- A concrete bead holding a full ten-entry history. -/
def sampleBead : Bead :=
  { beadId := "b0", element := sampleBeadElement ["cta"], changes := tenEntries }

/-- A concrete registry record for a given pid. -/
def sampleServerEntry (pid : Nat) : ServerEntry :=
  { token := "tok-0123456789abcdef", projectPath := "/tmp/proj",
    projectName := "proj", port := 3847, pid := pid, startedAt := "t0" }

/-!
Lemmas about the map primitives and the object key ordering.
-/

section MapLemmas

variable {κ α : Type} [BEq κ] [LawfulBEq κ]

theorem keys_mapSet (m : List (κ × α)) (k : κ) (v : α) :
    (mapSet m k v).map Prod.fst =
      if m.any fun p => p.1 == k then m.map Prod.fst
      else m.map Prod.fst ++ [k] := by
  unfold mapSet
  split
  · rw [List.map_map]
    refine List.map_congr_left ?_
    intro p _
    by_cases h : p.1 == k
    · simp only [Function.comp_apply, h, if_true]
      exact (eq_of_beq h).symm
    · simp [h]
  · simp

theorem mem_keys_of_any (m : List (κ × α)) (k : κ)
    (h : (m.any fun p => p.1 == k) = true) : k ∈ m.map Prod.fst := by
  rcases List.any_eq_true.mp h with ⟨p, hp, hpk⟩
  exact (eq_of_beq hpk) ▸ List.mem_map_of_mem Prod.fst hp

theorem not_mem_keys_of_any_false (m : List (κ × α)) (k : κ)
    (h : (m.any fun p => p.1 == k) = false) : k ∉ m.map Prod.fst := by
  intro hk
  rcases List.mem_map.mp hk with ⟨p, hp, hpk⟩
  have : (m.any fun p => p.1 == k) = true :=
    List.any_eq_true.mpr ⟨p, hp, by simp [hpk]⟩
  simp [this] at h

theorem mapLookup_eq_none_iff (m : List (κ × α)) (k : κ) :
    mapLookup m k = none ↔ ∀ p ∈ m, p.1 ≠ k := by
  unfold mapLookup
  constructor
  · intro h p hp hk
    cases hf : m.find? fun p => p.1 == k with
    | some q => simp [hf] at h
    | none =>
        have := List.find?_eq_none.mp hf p hp
        simp [hk] at this
  · intro h
    cases hf : m.find? fun p => p.1 == k with
    | some q =>
        have hq := List.find?_some hf
        have hqm := List.mem_of_find?_eq_some hf
        exact absurd (eq_of_beq hq) (h q hqm)
    | none => simp

theorem mem_of_mapLookup_eq_some (m : List (κ × α)) (k : κ) (v : α)
    (h : mapLookup m k = some v) : (k, v) ∈ m := by
  unfold mapLookup at h
  cases hf : m.find? fun p => p.1 == k with
  | none => simp [hf] at h
  | some q =>
      have hq := List.find?_some hf
      have hqm := List.mem_of_find?_eq_some hf
      simp [hf] at h
      have : q = (k, v) := by
        cases q with
        | mk q1 q2 =>
            simp at hq h
            simp [hq, h]
      exact this ▸ hqm

theorem mapLookup_eq_some_of_mem (m : List (κ × α)) (k : κ) (v : α)
    (hnd : (m.map Prod.fst).Nodup) (h : (k, v) ∈ m) :
    mapLookup m k = some v := by
  induction m with
  | nil => simp at h
  | cons p t ih =>
      rcases List.mem_cons.mp h with h1 | h2
      · subst h1
        unfold mapLookup
        simp [List.find?_cons_of_pos]
      · by_cases hpk : p.1 == k
        · exfalso
          have hk : k ∈ t.map Prod.fst := List.mem_map_of_mem Prod.fst h2
          have : p.1 ∉ t.map Prod.fst := (List.nodup_cons.mp (by simpa using hnd)).1
          exact this ((eq_of_beq hpk) ▸ hk)
        · have hnd' : (t.map Prod.fst).Nodup := (List.nodup_cons.mp (by simpa using hnd)).2
          have := ih hnd' h2
          unfold mapLookup at this ⊢
          rw [List.find?_cons_of_neg _ (by simpa using hpk)]
          exact this

theorem mapLookup_perm (m m' : List (κ × α)) (k : κ)
    (hnd : (m.map Prod.fst).Nodup) (hp : m.Perm m') :
    mapLookup m k = mapLookup m' k := by
  have hnd' : (m'.map Prod.fst).Nodup := ((hp.map Prod.fst).nodup_iff).mp hnd
  cases hv : mapLookup m k with
  | some v =>
      exact (mapLookup_eq_some_of_mem m' k v hnd'
        (hp.mem_iff.mp (mem_of_mapLookup_eq_some m k v hv))).symm
  | none =>
      have h1 := (mapLookup_eq_none_iff m k).mp hv
      exact ((mapLookup_eq_none_iff m' k).mpr
        (fun p hp' => h1 p (hp.mem_iff.mpr hp'))).symm

theorem mapLookup_map_replace_self (m : List (κ × α)) (k : κ) (v : α)
    (hany : (m.any fun p => p.1 == k) = true) :
    mapLookup (m.map fun p => if p.1 == k then (k, v) else p) k = some v := by
  induction m with
  | nil => simp at hany
  | cons p t ih =>
      by_cases hpk : p.1 == k
      · unfold mapLookup
        simp only [List.map_cons, hpk, if_true]
        rw [List.find?_cons_of_pos _ (by simp)]
      · have hany' : (t.any fun p => p.1 == k) = true := by
          simpa [hpk] using hany
        have := ih hany'
        unfold mapLookup at this ⊢
        simp only [List.map_cons, hpk, if_false]
        rw [List.find?_cons_of_neg _ (by simpa using hpk)]
        exact this

theorem mapLookup_append_single_self (m : List (κ × α)) (k : κ) (v : α)
    (hany : (m.any fun p => p.1 == k) = false) :
    mapLookup (m ++ [(k, v)]) k = some v := by
  induction m with
  | nil =>
      unfold mapLookup
      simp [List.find?_cons_of_pos]
  | cons p t ih =>
      have hpk : (p.1 == k) = false := by
        by_contra hc
        simp only [Bool.not_eq_false] at hc
        simp [hc] at hany
      have hany' : (t.any fun p => p.1 == k) = false := by
        by_contra hc
        simp only [Bool.not_eq_false] at hc
        simp [hc, hpk] at hany
      have := ih hany'
      unfold mapLookup at this ⊢
      rw [List.cons_append, List.find?_cons_of_neg _ (by simpa using hpk)]
      exact this

theorem mapLookup_mapSet_self (m : List (κ × α)) (k : κ) (v : α) :
    mapLookup (mapSet m k v) k = some v := by
  unfold mapSet
  split
  · exact mapLookup_map_replace_self m k v (by assumption)
  · rename_i hany
    exact mapLookup_append_single_self m k v (by
      rw [← Bool.not_eq_true]
      exact hany)

theorem mapLookup_map_replace_ne (m : List (κ × α)) (k k' : κ) (v : α)
    (hne : k' ≠ k) :
    mapLookup (m.map fun p => if p.1 == k then (k, v) else p) k' = mapLookup m k' := by
  induction m with
  | nil => simp [mapLookup]
  | cons p t ih =>
      cases hpk : p.1 == k with
      | true =>
          unfold mapLookup at ih ⊢
          simp only [List.map_cons, hpk, if_true]
          rw [List.find?_cons_of_neg _ (by
              simp only [Bool.not_eq_true]
              exact beq_eq_false_iff_ne.mpr fun h => hne h.symm),
            List.find?_cons_of_neg _ (by
              simp only [Bool.not_eq_true]
              refine beq_eq_false_iff_ne.mpr fun h => hne ?_
              rw [← h, eq_of_beq hpk])]
          exact ih
      | false =>
          unfold mapLookup at ih ⊢
          simp only [List.map_cons, hpk, if_false]
          cases hpk' : p.1 == k' with
          | true =>
              rw [List.find?_cons_of_pos _ (by simpa using hpk'),
                List.find?_cons_of_pos _ (by simpa using hpk')]
              simp
          | false =>
              rw [List.find?_cons_of_neg _ (by simp [hpk']),
                List.find?_cons_of_neg _ (by simp [hpk'])]
              exact ih

theorem mapLookup_append_single_ne (m : List (κ × α)) (k k' : κ) (v : α)
    (hne : k' ≠ k) :
    mapLookup (m ++ [(k, v)]) k' = mapLookup m k' := by
  induction m with
  | nil =>
      unfold mapLookup
      rw [List.nil_append,
        List.find?_cons_of_neg _ (by
          simp only [Bool.not_eq_true]
          exact beq_eq_false_iff_ne.mpr fun h => hne h.symm)]
  | cons p t ih =>
      unfold mapLookup at ih ⊢
      cases hpk' : p.1 == k' with
      | true =>
          rw [List.cons_append, List.find?_cons_of_pos _ (by simpa using hpk'),
            List.find?_cons_of_pos _ (by simpa using hpk')]
      | false =>
          rw [List.cons_append, List.find?_cons_of_neg _ (by simp [hpk']),
            List.find?_cons_of_neg _ (by simp [hpk'])]
          exact ih

theorem mapLookup_mapSet_ne (m : List (κ × α)) (k k' : κ) (v : α)
    (hne : k' ≠ k) : mapLookup (mapSet m k v) k' = mapLookup m k' := by
  unfold mapSet
  split
  · exact mapLookup_map_replace_ne m k k' v hne
  · exact mapLookup_append_single_ne m k k' v hne

theorem mem_mapSet (m : List (κ × α)) (k : κ) (v : α) (p : κ × α)
    (h : p ∈ mapSet m k v) : p = (k, v) ∨ p ∈ m := by
  unfold mapSet at h
  split at h
  · rcases List.mem_map.mp h with ⟨q, hq, hqe⟩
    by_cases hqk : q.1 == k
    · simp [hqk] at hqe
      exact Or.inl hqe.symm
    · simp [hqk] at hqe
      exact Or.inr (hqe ▸ hq)
  · rcases List.mem_append.mp h with h1 | h2
    · exact Or.inr h1
    · simp at h2
      exact Or.inl h2

theorem mem_mapSet_of_ne (m : List (κ × α)) (k : κ) (v : α) (p : κ × α)
    (hp : p ∈ m) (hne : p.1 ≠ k) : p ∈ mapSet m k v := by
  unfold mapSet
  split
  · refine List.mem_map.mpr ⟨p, hp, ?_⟩
    simp [beq_eq_false_iff_ne.mpr hne]
  · exact List.mem_append.mpr (Or.inl hp)

end MapLemmas

theorem sortKeys_perm (l : List (String × α)) : (sortKeys l).Perm l := by
  unfold sortKeys
  refine List.Perm.trans (List.Perm.append_right _ (List.perm_insertionSort _ _)) ?_
  exact List.filter_append_perm _ l

theorem keys_sortKeys_perm (l : List (String × α)) :
    ((sortKeys l).map Prod.fst).Perm (l.map Prod.fst) :=
  (sortKeys_perm l).map Prod.fst

theorem QWF_sortKeys {st : QState} (h : QWF st) : QWF (sortKeys st) :=
  ((keys_sortKeys_perm st).nodup_iff).mpr h

theorem mapLookup_sortKeys (st : QState) (k : String) (h : QWF st) :
    mapLookup (sortKeys st) k = mapLookup st k :=
  mapLookup_perm _ _ _ (QWF_sortKeys h) (sortKeys_perm st)

theorem keysFinset_sortKeys (st : QState) :
    keysFinset (sortKeys st) = keysFinset st :=
  List.toFinset_eq_of_perm _ _ ((sortKeys_perm st).map Prod.fst)

theorem keysFinset_mapSet (m : QState) (k : String) (v : VisualChange) :
    keysFinset (mapSet m k v) = insert k (keysFinset m) := by
  unfold keysFinset
  rw [keys_mapSet]
  split
  · rename_i hany
    have hk : k ∈ (m.map Prod.fst).toFinset :=
      List.mem_toFinset.mpr (mem_keys_of_any m k hany)
    exact (Finset.insert_eq_self.mpr hk).symm
  · rw [List.toFinset_append]
    simp [Finset.union_comm, Finset.insert_eq]

theorem keys_filter_ne (m : QState) (id : String) :
    ((m.filter fun p => p.1 != id).map Prod.fst) =
      (m.map Prod.fst).filter fun x => x != id := by
  induction m with
  | nil => rfl
  | cons p t ih =>
      cases h : p.1 != id with
      | true => simp [List.filter_cons, h, ih]
      | false => simp [List.filter_cons, h, ih]

theorem keysFinset_filter_ne (m : QState) (id : String) :
    keysFinset (m.filter fun p => p.1 != id) = (keysFinset m).erase id := by
  unfold keysFinset
  rw [keys_filter_ne, List.toFinset_filter]
  ext a
  simp [Finset.mem_erase, bne_iff_ne, and_comm]

theorem QInv_sortKeys {st : QState} (h : QInv st) : QInv (sortKeys st) :=
  fun p hp => h p ((sortKeys_perm st).mem_iff.mp hp)

theorem QInv_mapSet {m : QState} {k : String} {v : VisualChange}
    (h : QInv m) (hv : v.id = k) : QInv (mapSet m k v) := by
  intro p hp
  rcases mem_mapSet m k v p hp with h1 | h2
  · rw [h1]
    exact hv
  · exact h p h2

theorem QInv_filter {m : QState} (q : String × VisualChange → Bool)
    (h : QInv m) : QInv (m.filter q) :=
  fun p hp => h p (List.mem_of_mem_filter hp)

theorem mem_keysFinset_of_lookup {st : QState} {k : String} {c : VisualChange}
    (h : mapLookup st k = some c) : k ∈ keysFinset st := by
  have := mem_of_mapLookup_eq_some st k c h
  exact List.mem_toFinset.mpr (List.mem_map.mpr ⟨(k, c), this, rfl⟩)

/-- One operation moves the stored id set exactly as the specification
fold predicts, and preserves the key-id invariant. -/
theorem applyOp_keys (st : QState) (op : QOp) (hinv : QInv st) :
    keysFinset (applyOp st op) = aliveStep (keysFinset st) op ∧ QInv (applyOp st op) := by
  cases op with
  | add c =>
      simp only [applyOp, ChangeQueue.add, ChangeQueue.readChanges, ChangeQueue.writeChanges,
        aliveStep]
      constructor
      · rw [keysFinset_sortKeys, keysFinset_mapSet, keysFinset_sortKeys]
      · exact QInv_sortKeys (QInv_mapSet (QInv_sortKeys hinv) rfl)
  | markApplied id =>
      simp only [applyOp, ChangeQueue.markApplied, ChangeQueue.readChanges,
        ChangeQueue.writeChanges, aliveStep]
      cases hl : mapLookup (sortKeys st) id with
      | none => exact ⟨rfl, hinv⟩
      | some c =>
          simp only
          constructor
          · rw [keysFinset_sortKeys, keysFinset_mapSet, keysFinset_sortKeys]
            have hk : id ∈ keysFinset st := by
              have := mem_keysFinset_of_lookup hl
              rwa [keysFinset_sortKeys] at this
            exact Finset.insert_eq_self.mpr hk
          · have hc : c.id = id :=
              QInv_sortKeys hinv (id, c) (mem_of_mapLookup_eq_some _ _ _ hl)
            exact QInv_sortKeys (QInv_mapSet (QInv_sortKeys hinv) hc)
  | markFailed id reason =>
      simp only [applyOp, ChangeQueue.markFailed, ChangeQueue.readChanges,
        ChangeQueue.writeChanges, aliveStep]
      cases hl : mapLookup (sortKeys st) id with
      | none => exact ⟨rfl, hinv⟩
      | some c =>
          simp only
          constructor
          · rw [keysFinset_sortKeys, keysFinset_mapSet, keysFinset_sortKeys]
            have hk : id ∈ keysFinset st := by
              have := mem_keysFinset_of_lookup hl
              rwa [keysFinset_sortKeys] at this
            exact Finset.insert_eq_self.mpr hk
          · have hc : c.id = id :=
              QInv_sortKeys hinv (id, c) (mem_of_mapLookup_eq_some _ _ _ hl)
            exact QInv_sortKeys (QInv_mapSet (QInv_sortKeys hinv) hc)
  | remove id =>
      simp only [applyOp, ChangeQueue.remove, ChangeQueue.readChanges,
        ChangeQueue.writeChanges, aliveStep]
      by_cases hany : ((sortKeys st).any fun p => p.1 == id) = true
      · simp only [hany, if_true]
        constructor
        · rw [keysFinset_sortKeys, keysFinset_filter_ne, keysFinset_sortKeys]
        · exact QInv_sortKeys (QInv_filter _ (QInv_sortKeys hinv))
      · simp only [hany, if_false]
        constructor
        · have hid : id ∉ keysFinset st := by
            intro hmem
            apply not_mem_keys_of_any_false (sortKeys st) id (by
              rw [← Bool.not_eq_true]
              exact hany)
            have : id ∈ keysFinset (sortKeys st) := by
              rwa [keysFinset_sortKeys]
            exact List.mem_toFinset.mp this
          exact (Finset.erase_eq_of_not_mem hid).symm
        · exact hinv
  | clear =>
      simp only [applyOp, ChangeQueue.clear, ChangeQueue.writeChanges, aliveStep]
      exact ⟨rfl, by intro p hp; simp [sortKeys] at hp⟩

/-- Folding any operation sequence tracks the specification fold. -/
theorem foldl_applyOp_keys (ops : List QOp) (st : QState) (A : Finset String)
    (hinv : QInv st) (hA : keysFinset st = A) :
    keysFinset (ops.foldl applyOp st) = ops.foldl aliveStep A
      ∧ QInv (ops.foldl applyOp st) := by
  induction ops generalizing st A with
  | nil => exact ⟨hA, hinv⟩
  | cons op rest ih =>
      have h1 := applyOp_keys st op hinv
      exact ih (applyOp st op) (aliveStep A op) h1.2 (hA ▸ h1.1)

theorem getPending_true_eq (st : QState) :
    ChangeQueue.getPending st true = (sortKeys st).map Prod.snd := by
  unfold ChangeQueue.getPending ChangeQueue.readChanges
  simp

theorem getPending_true_ids (st : QState) (hinv : QInv st) :
    ((ChangeQueue.getPending st true).map VisualChange.id).toFinset = keysFinset st := by
  rw [getPending_true_eq, List.map_map]
  have h2 : ((sortKeys st).map (VisualChange.id ∘ Prod.snd)) = (sortKeys st).map Prod.fst :=
    List.map_congr_left fun p hp => QInv_sortKeys hinv p hp
  rw [h2]
  exact keysFinset_sortKeys st

theorem QWF_mapSet {m : QState} (k : String) (v : VisualChange) (h : QWF m) :
    QWF (mapSet m k v) := by
  unfold QWF
  rw [keys_mapSet]
  split
  · exact h
  · rename_i hany
    have hnotin : k ∉ m.map Prod.fst :=
      not_mem_keys_of_any_false m k (by
        rw [← Bool.not_eq_true]
        exact hany)
    rw [List.nodup_append]
    exact ⟨h, List.nodup_singleton k, by
      intro a ha hk
      simp at hk
      exact hnotin (hk ▸ ha)⟩

theorem get_eq_lookup_sortKeys (st : QState) (id : String) :
    ChangeQueue.get st id = mapLookup (sortKeys st) id := rfl

theorem get_writeChanges (m : QState) (id : String) (hwf : QWF m) :
    ChangeQueue.get (ChangeQueue.writeChanges m) id = mapLookup m id := by
  unfold ChangeQueue.get ChangeQueue.readChanges ChangeQueue.writeChanges
  rw [mapLookup_sortKeys _ _ (QWF_sortKeys hwf), mapLookup_sortKeys _ _ hwf]

theorem markApplied_found (st : QState) (id : String) (c : VisualChange)
    (h : ChangeQueue.get st id = some c) :
    ChangeQueue.markApplied st id =
      { state := ChangeQueue.writeChanges
          (mapSet (sortKeys st) id { c with status := Status.applied })
        found := true
        wrote := true } := by
  unfold ChangeQueue.markApplied
  simp only [ChangeQueue.get, ChangeQueue.readChanges] at h
  simp [ChangeQueue.readChanges, h]

theorem markFailed_found (st : QState) (id : String) (c : VisualChange)
    (reason : Option String) (h : ChangeQueue.get st id = some c) :
    ChangeQueue.markFailed st id reason =
      { state := ChangeQueue.writeChanges
          (mapSet (sortKeys st) id
            { c with status := Status.failed
                     failureReason := reason
                     retryCount := some ((c.retryCount.getD 0) + 1) })
        found := true
        wrote := true } := by
  unfold ChangeQueue.markFailed
  simp only [ChangeQueue.get, ChangeQueue.readChanges] at h
  simp [ChangeQueue.readChanges, h]

theorem get_markApplied_state (st : QState) (id : String) (c : VisualChange)
    (hwf : QWF st) (h : ChangeQueue.get st id = some c) :
    ChangeQueue.get (ChangeQueue.markApplied st id).state id
        = some { c with status := Status.applied }
      ∧ QWF (ChangeQueue.markApplied st id).state := by
  rw [markApplied_found st id c h]
  have w2 : QWF (mapSet (sortKeys st) id { c with status := Status.applied }) :=
    QWF_mapSet _ _ (QWF_sortKeys hwf)
  constructor
  · rw [get_writeChanges _ _ w2]
    exact mapLookup_mapSet_self _ _ _
  · exact QWF_sortKeys w2

theorem get_markFailed_state (st : QState) (id : String) (c : VisualChange)
    (reason : Option String) (hwf : QWF st) (h : ChangeQueue.get st id = some c) :
    ChangeQueue.get (ChangeQueue.markFailed st id reason).state id
        = some { c with status := Status.failed
                        failureReason := reason
                        retryCount := some ((c.retryCount.getD 0) + 1) }
      ∧ QWF (ChangeQueue.markFailed st id reason).state := by
  rw [markFailed_found st id c reason h]
  have w2 : QWF (mapSet (sortKeys st) id
      { c with status := Status.failed
               failureReason := reason
               retryCount := some ((c.retryCount.getD 0) + 1) }) :=
    QWF_mapSet _ _ (QWF_sortKeys hwf)
  constructor
  · rw [get_writeChanges _ _ w2]
    exact mapLookup_mapSet_self _ _ _
  · exact QWF_sortKeys w2

theorem get_add_state (st : QState) (c : VisualChange) (hwf : QWF st) :
    ChangeQueue.get (ChangeQueue.add st c) c.id = some { c with retryCount := some 0 } := by
  unfold ChangeQueue.add ChangeQueue.readChanges
  have w2 : QWF (mapSet (sortKeys st) c.id { c with retryCount := some 0 }) :=
    QWF_mapSet _ _ (QWF_sortKeys hwf)
  rw [get_writeChanges _ _ w2]
  exact mapLookup_mapSet_self _ _ _

theorem setStatus_applied_self (c : VisualChange) (h : c.status = Status.applied) :
    { c with status := Status.applied } = c := by
  cases c
  simp_all

theorem any_keys_iff (m : QState) (k : String) :
    (m.any fun p => p.1 == k) = true ↔ k ∈ m.map Prod.fst := by
  constructor
  · exact mem_keys_of_any m k
  · intro h
    rcases List.mem_map.mp h with ⟨p, hp, hpk⟩
    exact List.any_eq_true.mpr ⟨p, hp, by simp [hpk]⟩

theorem sortKeys_of_no_index (m : QState)
    (h : ∀ p ∈ m, isArrayIndexKey p.1 = false) : sortKeys m = m := by
  unfold sortKeys
  have h1 : (m.filter fun p => isArrayIndexKey p.1) = [] :=
    List.filter_eq_nil_iff.mpr (by
      intro p hp
      simp [h p hp])
  have h2 : (m.filter fun p => !isArrayIndexKey p.1) = m :=
    List.filter_eq_self.mpr (by
      intro p hp
      simp [h p hp])
  rw [h1, h2]
  rfl

theorem nodup_erase_eq_filter_bne (l : List String) (a : String) (hnd : l.Nodup) :
    l.erase a = l.filter fun x => x != a := by
  induction l with
  | nil => rfl
  | cons b t ih =>
      by_cases hba : b = a
      · subst hba
        have hnotin : b ∉ t := (List.nodup_cons.mp hnd).1
        have hfilter : List.filter (fun x => x != b) t = t :=
          List.filter_eq_self.mpr fun x hx =>
            bne_iff_ne.mpr fun hxb => hnotin (hxb ▸ hx)
        rw [List.erase_cons, if_pos (by simp), List.filter_cons]
        simp only [bne_self_eq_false, Bool.false_eq_true, if_false]
        exact hfilter.symm
      · rw [List.erase_cons, if_neg (by simp [hba]), List.filter_cons]
        have hcond : (b != a) = true := bne_iff_ne.mpr hba
        rw [hcond]
        simp only [if_true]
        rw [ih (List.nodup_cons.mp hnd).2]

/-- One operation moves the ordered key list exactly as the insertion-order
fold predicts, provided no id involved is an array-index string. -/
theorem applyOp_order (st : QState) (op : QOp)
    (hnd : (st.map Prod.fst).Nodup)
    (hni : ∀ p ∈ st, isArrayIndexKey p.1 = false)
    (hinv : QInv st)
    (hop : ∀ c, op = QOp.add c → isArrayIndexKey c.id = false) :
    (applyOp st op).map Prod.fst = insStep (st.map Prod.fst) op
      ∧ ((applyOp st op).map Prod.fst).Nodup
      ∧ (∀ p ∈ applyOp st op, isArrayIndexKey p.1 = false)
      ∧ QInv (applyOp st op) := by
  have e1 : sortKeys st = st := sortKeys_of_no_index st hni
  cases op with
  | add c =>
      have hcid := hop c rfl
      simp only [applyOp, ChangeQueue.add, ChangeQueue.readChanges, ChangeQueue.writeChanges,
        insStep, e1]
      have hni2 : ∀ p ∈ mapSet st c.id { c with retryCount := some 0 },
          isArrayIndexKey p.1 = false := by
        intro p hp
        rcases mem_mapSet _ _ _ p hp with h1 | h2
        · rw [h1]
          exact hcid
        · exact hni p h2
      rw [sortKeys_of_no_index _ hni2]
      refine ⟨?_, QWF_mapSet _ _ hnd, hni2, QInv_mapSet hinv rfl⟩
      rw [keys_mapSet]
      by_cases hmem : c.id ∈ st.map Prod.fst
      · rw [if_pos ((any_keys_iff st c.id).mpr hmem), if_pos hmem]
      · rw [if_neg (by
            rw [any_keys_iff]
            exact hmem), if_neg hmem]
  | markApplied id =>
      simp only [applyOp, ChangeQueue.markApplied, ChangeQueue.readChanges,
        ChangeQueue.writeChanges, insStep, e1]
      cases hl : mapLookup st id with
      | none => exact ⟨rfl, hnd, hni, hinv⟩
      | some c =>
          simp only
          have hmem : (id, c) ∈ st := mem_of_mapLookup_eq_some _ _ _ hl
          have hidni : isArrayIndexKey id = false := hni (id, c) hmem
          have hni2 : ∀ p ∈ mapSet st id { c with status := Status.applied },
              isArrayIndexKey p.1 = false := by
            intro p hp
            rcases mem_mapSet _ _ _ p hp with h1 | h2
            · rw [h1]
              exact hidni
            · exact hni p h2
          rw [sortKeys_of_no_index _ hni2]
          refine ⟨?_, QWF_mapSet _ _ hnd, hni2, QInv_mapSet hinv (hinv (id, c) hmem)⟩
          rw [keys_mapSet,
            if_pos ((any_keys_iff st id).mpr (List.mem_map.mpr ⟨(id, c), hmem, rfl⟩))]
  | markFailed id reason =>
      simp only [applyOp, ChangeQueue.markFailed, ChangeQueue.readChanges,
        ChangeQueue.writeChanges, insStep, e1]
      cases hl : mapLookup st id with
      | none => exact ⟨rfl, hnd, hni, hinv⟩
      | some c =>
          simp only
          have hmem : (id, c) ∈ st := mem_of_mapLookup_eq_some _ _ _ hl
          have hidni : isArrayIndexKey id = false := hni (id, c) hmem
          have hni2 : ∀ p ∈ mapSet st id
              { c with status := Status.failed, failureReason := reason,
                       retryCount := some ((c.retryCount.getD 0) + 1) },
              isArrayIndexKey p.1 = false := by
            intro p hp
            rcases mem_mapSet _ _ _ p hp with h1 | h2
            · rw [h1]
              exact hidni
            · exact hni p h2
          rw [sortKeys_of_no_index _ hni2]
          refine ⟨?_, QWF_mapSet _ _ hnd, hni2, QInv_mapSet hinv (hinv (id, c) hmem)⟩
          rw [keys_mapSet,
            if_pos ((any_keys_iff st id).mpr (List.mem_map.mpr ⟨(id, c), hmem, rfl⟩))]
  | remove id =>
      simp only [applyOp, ChangeQueue.remove, ChangeQueue.readChanges,
        ChangeQueue.writeChanges, insStep, e1]
      by_cases hany : (st.any fun p => p.1 == id) = true
      · simp only [hany, if_true]
        have hni2 : ∀ p ∈ st.filter (fun p => p.1 != id), isArrayIndexKey p.1 = false :=
          fun p hp => hni p (List.mem_of_mem_filter hp)
        rw [sortKeys_of_no_index _ hni2, keys_filter_ne]
        refine ⟨?_, ?_, hni2, QInv_filter _ hinv⟩
        · rw [nodup_erase_eq_filter_bne _ _ hnd]
        · rw [← nodup_erase_eq_filter_bne _ _ hnd]
          exact hnd.erase id
      · simp only [hany, if_false]
        have hnotin : id ∉ st.map Prod.fst := by
          rw [← any_keys_iff]
          simpa using hany
        rw [List.erase_of_not_mem hnotin]
        exact ⟨rfl, hnd, hni, hinv⟩
  | clear =>
      simp only [applyOp, ChangeQueue.clear, ChangeQueue.writeChanges, insStep]
      exact ⟨rfl, List.nodup_nil, by simp [sortKeys], by intro p hp; simp [sortKeys] at hp⟩

/-- Folding an operation sequence whose added ids are all non-array-index
keys tracks the insertion-order fold. -/
theorem foldl_applyOp_order (ops : List QOp) (st : QState)
    (hnd : (st.map Prod.fst).Nodup)
    (hni : ∀ p ∈ st, isArrayIndexKey p.1 = false)
    (hinv : QInv st)
    (hops : ∀ id ∈ addedIds ops, isArrayIndexKey id = false) :
    (ops.foldl applyOp st).map Prod.fst = ops.foldl insStep (st.map Prod.fst)
      ∧ ((ops.foldl applyOp st).map Prod.fst).Nodup
      ∧ (∀ p ∈ ops.foldl applyOp st, isArrayIndexKey p.1 = false)
      ∧ QInv (ops.foldl applyOp st) := by
  induction ops generalizing st with
  | nil => exact ⟨rfl, hnd, hni, hinv⟩
  | cons op rest ih =>
      have hop : ∀ c, op = QOp.add c → isArrayIndexKey c.id = false := by
        intro c hc
        refine hops c.id ?_
        simp [addedIds, hc]
      have h1 := applyOp_order st op hnd hni hinv hop
      have hops' : ∀ id ∈ addedIds rest, isArrayIndexKey id = false := by
        intro id hid
        refine hops id ?_
        simp only [addedIds, List.filterMap_cons]
        cases op <;> simp [addedIds] at hid ⊢ <;> simp [hid]
      have h2 := ih (applyOp st op) h1.2.1 h1.2.2.1 h1.2.2.2 hops'
      rw [List.foldl_cons, List.foldl_cons, ← h1.1]
      exact h2

/-- Any comparison sort determines its output from the multiset of inputs:
two permuted class lists sort to the same list. -/
theorem jsSortStrings_perm_eq (l1 l2 : List String) (h : l1.Perm l2) :
    jsSortStrings l1 = jsSortStrings l2 := by
  unfold jsSortStrings
  exact List.eq_of_perm_of_sorted
    (((List.perm_insertionSort (fun a b => a ≤ b) l1).trans h).trans
      (List.perm_insertionSort (fun a b => a ≤ b) l2).symm)
    (List.sorted_insertionSort (fun a b => a ≤ b) l1)
    (List.sorted_insertionSort (fun a b => a ≤ b) l2)

/-!
Claim theorems.
-/

/-- C1: starting from the empty store, after every finite sequence of add,
markApplied, markFailed, remove and clear operations, getPending true
returns exactly the set of ids ever passed to add, minus ids later removed
and minus every id present at a clear; markApplied and markFailed never
add or delete an id, which the specification fold aliveIds records by
leaving the set untouched on those operations. -/
theorem c1_pending_ids_exact (ops : List QOp) :
    ((ChangeQueue.getPending (runOps ops) true).map VisualChange.id).toFinset
      = aliveIds ops := by
  have h := foldl_applyOp_keys ops [] ∅
    (by
      intro p hp
      simp at hp)
    rfl
  rw [runOps, getPending_true_ids (List.foldl applyOp [] ops) h.2]
  exact h.1

/-- C2: for every well-formed store state and every id present in it,
markApplied twice in a row reports found both times and leaves the same
terminal status applied as one call; markFailed twice reports found both
times and leaves status failed both times; both operations are total
functions of the embedded state, so neither call raises; and markApplied on
an already-applied record returns success and leaves the record unchanged. -/
theorem c2_mark_idempotent (st : QState) (id : String) (c : VisualChange)
    (reason1 reason2 : Option String) (hwf : QWF st)
    (h : ChangeQueue.get st id = some c) :
    (ChangeQueue.markApplied st id).found = true
    ∧ (ChangeQueue.markApplied (ChangeQueue.markApplied st id).state id).found = true
    ∧ (ChangeQueue.get (ChangeQueue.markApplied st id).state id).map VisualChange.status
        = some Status.applied
    ∧ (ChangeQueue.get (ChangeQueue.markApplied
          (ChangeQueue.markApplied st id).state id).state id).map VisualChange.status
        = some Status.applied
    ∧ (ChangeQueue.markFailed st id reason1).found = true
    ∧ (ChangeQueue.markFailed (ChangeQueue.markFailed st id reason1).state id reason2).found
        = true
    ∧ (ChangeQueue.get (ChangeQueue.markFailed st id reason1).state id).map
          VisualChange.status
        = some Status.failed
    ∧ (ChangeQueue.get (ChangeQueue.markFailed
          (ChangeQueue.markFailed st id reason1).state id reason2).state id).map
          VisualChange.status
        = some Status.failed
    ∧ (c.status = Status.applied →
        ChangeQueue.get (ChangeQueue.markApplied st id).state id = some c) := by
  have ha1 := get_markApplied_state st id c hwf h
  have ha2 := get_markApplied_state _ id _ ha1.2 ha1.1
  have hf1 := get_markFailed_state st id c reason1 hwf h
  have hf2 := get_markFailed_state _ id _ reason2 hf1.2 hf1.1
  refine ⟨?_, ?_, ?_, ?_, ?_, ?_, ?_, ?_, ?_⟩
  · rw [markApplied_found st id c h]
  · rw [markApplied_found _ id _ ha1.1]
  · rw [ha1.1]
    rfl
  · rw [ha2.1]
    rfl
  · rw [markFailed_found st id c reason1 h]
  · rw [markFailed_found _ id _ reason2 hf1.1]
  · rw [hf1.1]
    rfl
  · rw [hf2.1]
    rfl
  · intro happlied
    rw [ha1.1, setStatus_applied_self c happlied]

/-- C2 witness: a concrete store with one confirmed record under id a. -/
theorem c2_mark_idempotent_witness :
    QWF [("a", sampleChange "a" Status.confirmed)]
    ∧ ChangeQueue.get [("a", sampleChange "a" Status.confirmed)] "a"
        = some (sampleChange "a" Status.confirmed)
    ∧ (ChangeQueue.markApplied [("a", sampleChange "a" Status.confirmed)] "a").found = true :=
  ⟨by decide, by decide,
    (c2_mark_idempotent [("a", sampleChange "a" Status.confirmed)] "a"
      (sampleChange "a" Status.confirmed) none none (by decide) (by decide)).1⟩

/-- C9: calling markApplied or markFailed with an id the store does not
hold returns a not-found result, leaves the state unchanged, and does not
rewrite the backing table. -/
theorem c9_mark_unknown (st : QState) (id : String) (reason : Option String)
    (h : ChangeQueue.get st id = none) :
    ChangeQueue.markApplied st id = { state := st, found := false, wrote := false }
    ∧ ChangeQueue.markFailed st id reason
        = { state := st, found := false, wrote := false } := by
  simp only [ChangeQueue.get] at h
  constructor
  · unfold ChangeQueue.markApplied
    simp [h]
  · unfold ChangeQueue.markFailed
    simp [h]

/-- C9 witness: id x was never added to a concrete one-record store. -/
theorem c9_mark_unknown_witness :
    ChangeQueue.get [("a", sampleChange "a" Status.confirmed)] "x" = none
    ∧ ChangeQueue.markApplied [("a", sampleChange "a" Status.confirmed)] "x"
        = { state := [("a", sampleChange "a" Status.confirmed)], found := false,
            wrote := false } :=
  ⟨by decide,
    (c9_mark_unknown [("a", sampleChange "a" Status.confirmed)] "x" none (by decide)).1⟩

/-- C10: add is an unconditional upsert: on a well-formed store already
holding the id, add replaces the stored record entirely with the incoming
change, with retryCount reset to 0, discarding the earlier status,
failureReason and retryCount; add never fails (its fallible form reports
no raised error). -/
theorem c10_add_upsert (st : QState) (c : VisualChange) (hwf : QWF st)
    (_hpresent : (ChangeQueue.get st c.id).isSome = true) :
    ChangeQueue.get (ChangeQueue.add st c) c.id = some { c with retryCount := some 0 }
    ∧ (ChangeQueue.addFallible true st c).raised = false :=
  ⟨get_add_state st c hwf, rfl⟩

/-- C10 witness: re-adding id a over an applied record with retryCount 7
yields a fresh confirmed record with retryCount 0. -/
theorem c10_add_upsert_witness :
    QWF [("a", sampleChange "a" Status.applied)]
    ∧ (ChangeQueue.get [("a", sampleChange "a" Status.applied)]
        (sampleChange "a" Status.confirmed).id).isSome = true
    ∧ ChangeQueue.get
        (ChangeQueue.add [("a", sampleChange "a" Status.applied)]
          (sampleChange "a" Status.confirmed))
        (sampleChange "a" Status.confirmed).id
        = some { sampleChange "a" Status.confirmed with retryCount := some 0 } :=
  ⟨by decide, by decide,
    (c10_add_upsert [("a", sampleChange "a" Status.applied)]
      (sampleChange "a" Status.confirmed) (by decide) (by decide)).1⟩

/-- C4 counterexample: when the backing medium cannot be written, add does
not fail with an observable PersistenceError: the write error is caught and
logged inside writeChanges, add returns normally, and the file silently
keeps its old contents.  The claim asserts that add fails with an error the
caller can observe, which is false at this concrete input. -/
theorem c4_counterexample :
    (ChangeQueue.addFallible false [] (sampleChange "a" Status.confirmed)).raised = false
    ∧ (ChangeQueue.addFallible false [] (sampleChange "a" Status.confirmed)).state = []
    ∧ (ChangeQueue.addFallible false [] (sampleChange "a" Status.confirmed)).storeLogged
        = true :=
  ⟨rfl, rfl, rfl⟩

/-- C4 amended: add inserts with retryCount forced to 0 whatever the caller
supplied; when the backing medium cannot be written, the error is caught
and logged inside the store (writeChanges), add returns normally without
raising, and the backing file keeps its previous contents; the caller does
not observe the failure. -/
theorem c4_add_retry_and_write_failure (st : QState) (c : VisualChange) (hwf : QWF st) :
    ChangeQueue.get (ChangeQueue.add st c) c.id = some { c with retryCount := some 0 }
    ∧ (ChangeQueue.addFallible true st c).state = ChangeQueue.add st c
    ∧ (ChangeQueue.addFallible true st c).raised = false
    ∧ (ChangeQueue.addFallible false st c).state = st
    ∧ (ChangeQueue.addFallible false st c).raised = false
    ∧ (ChangeQueue.addFallible false st c).storeLogged = true :=
  ⟨get_add_state st c hwf, rfl, rfl, rfl, rfl, rfl⟩

/-- C4 witness: the amended statement applied to the empty store. -/
theorem c4_add_retry_and_write_failure_witness :
    QWF ([] : QState)
    ∧ ChangeQueue.get (ChangeQueue.add [] (sampleChange "a" Status.confirmed))
        (sampleChange "a" Status.confirmed).id
        = some { sampleChange "a" Status.confirmed with retryCount := some 0 } :=
  ⟨by decide,
    (c4_add_retry_and_write_failure [] (sampleChange "a" Status.confirmed) (by decide)).1⟩

theorem getPending_false_eq (st : QState) :
    ChangeQueue.getPending st false
      = ((sortKeys st).map Prod.snd).filter
          fun c => c.status == Status.confirmed || c.status == Status.failed := by
  unfold ChangeQueue.getPending ChangeQueue.readChanges
  simp

/-- C3 counterexample: two adds with client-supplied ids 5 then 3.  Both
ids are canonical array-index strings, so the JSON object round-trip
enumerates them in ascending numeric order: getPending true returns the
record added second first, breaking insertion order. -/
theorem c3_counterexample :
    insOrder [QOp.add (sampleChange "5" Status.confirmed),
        QOp.add (sampleChange "3" Status.confirmed)] = ["5", "3"]
    ∧ (ChangeQueue.getPending (runOps [QOp.add (sampleChange "5" Status.confirmed),
        QOp.add (sampleChange "3" Status.confirmed)]) true).map VisualChange.id
        = ["3", "5"]
    ∧ (ChangeQueue.getPending (runOps [QOp.add (sampleChange "5" Status.confirmed),
        QOp.add (sampleChange "3" Status.confirmed)]) true).map VisualChange.id
        ≠ insOrder [QOp.add (sampleChange "5" Status.confirmed),
            QOp.add (sampleChange "3" Status.confirmed)] :=
  ⟨by decide, by decide, by decide⟩

/-- C3 amended: getPending false returns exactly the records with status
confirmed or failed, getPending true returns all records, and records are
returned in insertion order provided no stored id is a canonical
array-index string (a decimal numeral below 2^32 - 1); ids of that shape
are instead enumerated first in ascending numeric order by the JSON object
round-trip that every call performs.  The auto-generated millisecond
timestamp ids exceed that range, so they always keep insertion order. -/
theorem c3_pending_filter_and_order (ops : List QOp)
    (h : ∀ id ∈ addedIds ops, isArrayIndexKey id = false) :
    (ChangeQueue.getPending (runOps ops) true).map VisualChange.id = insOrder ops
    ∧ (∀ st c, c ∈ ChangeQueue.getPending st false ↔
        c ∈ ChangeQueue.getPending st true
          ∧ (c.status = Status.confirmed ∨ c.status = Status.failed))
    ∧ (∀ st c, c ∈ ChangeQueue.getPending st true ↔ c ∈ st.map Prod.snd) := by
  have h0 := foldl_applyOp_order ops []
    (by simp)
    (by
      intro p hp
      simp at hp)
    (by
      intro p hp
      simp at hp)
    h
  refine ⟨?_, ?_, ?_⟩
  · rw [runOps, getPending_true_eq, sortKeys_of_no_index _ h0.2.2.1, List.map_map]
    have hmap : (List.foldl applyOp [] ops).map (VisualChange.id ∘ Prod.snd)
        = (List.foldl applyOp [] ops).map Prod.fst :=
      List.map_congr_left fun p hp => h0.2.2.2 p hp
    rw [hmap, h0.1]
    rfl
  · intro st c
    rw [getPending_false_eq, getPending_true_eq, List.mem_filter]
    simp [Bool.or_eq_true, beq_iff_eq]
  · intro st c
    rw [getPending_true_eq]
    exact ((sortKeys_perm st).map Prod.snd).mem_iff

/-- C3 witness: two adds with non-array-index ids keep insertion order. -/
theorem c3_pending_filter_and_order_witness :
    (∀ id ∈ addedIds [QOp.add (sampleChange "task-a" Status.confirmed),
        QOp.add (sampleChange "task-b" Status.confirmed)], isArrayIndexKey id = false)
    ∧ (ChangeQueue.getPending (runOps [QOp.add (sampleChange "task-a" Status.confirmed),
        QOp.add (sampleChange "task-b" Status.confirmed)]) true).map VisualChange.id
        = insOrder [QOp.add (sampleChange "task-a" Status.confirmed),
            QOp.add (sampleChange "task-b" Status.confirmed)] :=
  ⟨by decide,
    (c3_pending_filter_and_order
      [QOp.add (sampleChange "task-a" Status.confirmed),
        QOp.add (sampleChange "task-b" Status.confirmed)] (by decide)).1⟩

/-- C5 counterexample: the standalone server (part_004) performs no token
validation at all (its status endpoint reports requiresToken false): a
connection presenting the token wrong-token, which matches no configured
secret, is not closed with any code and its visual_feedback message still
creates a task record.  This falsifies the claim that the change-creating
handler is only reachable after a successful token check on every cited
connection handler. -/
theorem c5_counterexample :
    (standaloneConnection "1700000000000" []
        { token := some "wrong-token",
          messages := [ExtMsg.visualFeedback samplePayload] }).closeCode = none
    ∧ ((standaloneConnection "1700000000000" []
        { token := some "wrong-token",
          messages := [ExtMsg.visualFeedback samplePayload] }).tasks.map Prod.fst)
        = ["task-1"] :=
  ⟨rfl, by decide⟩

/-- C5 amended: on the MCP server (part_002), every connection whose
presented token differs from the server token is closed with code 1008 and
reason Invalid token, and no message of that connection reaches the
handler, so the request store is unchanged; the standalone server
(part_004) never closes a connection over its token, because it performs no
token validation. -/
theorem c5_token_check (serverToken now : String) (st : QState) (ts : TaskMap)
    (conn : ConnAttempt) (h : conn.token ≠ some serverToken) :
    mcpConnection serverToken now st conn
        = { closeCode := some (1008, "Invalid token"), state := st }
    ∧ (standaloneConnection now ts conn).closeCode = none := by
  constructor
  · unfold mcpConnection
    rw [if_neg h]
  · rfl

/-- C5 witness: a wrong token against a concrete server token. -/
theorem c5_token_check_witness :
    (some "wrong-token" ≠ some "secret-token-0123")
    ∧ mcpConnection "secret-token-0123" "1700000000000" []
        { token := some "wrong-token", messages := [ExtMsg.visualFeedback samplePayload] }
        = { closeCode := some (1008, "Invalid token"), state := [] } :=
  ⟨by decide,
    (c5_token_check "secret-token-0123" "1700000000000" [] []
      { token := some "wrong-token", messages := [ExtMsg.visualFeedback samplePayload] }
      (by decide)).1⟩

/-- C6: the bead history never exceeds 10 entries after any save, and when
the history already holds exactly 10 entries the oldest is dropped: the
result is the 9 newer entries in their original relative order followed by
the appended entry, newest last. -/
theorem c6_bead_history_cap (existing : Option Bead) (b : Bead) (e : BeadElement)
    (feedback taskId now : String) (success : Bool) :
    (saveElementBead existing e feedback taskId now success).changes.length ≤ 10
    ∧ (b.changes.length = 10 →
        (saveElementBead (some b) e feedback taskId now success).changes
          = b.changes.drop 1 ++ [BeadEntry.mk taskId feedback now success]) := by
  constructor
  · unfold saveElementBead
    simp only
    split
    · rw [List.length_drop]
      omega
    · rename_i hle
      omega
  · intro h10
    unfold saveElementBead
    simp only [Option.getD_some]
    have hlen : (b.changes ++ [BeadEntry.mk taskId feedback now success]).length = 11 := by
      simp [h10]
    rw [if_pos (by
        rw [hlen]
        omega), hlen]
    have h11 : (11 : Nat) - 10 = 1 := by omega
    rw [h11, List.drop_append_of_le_length (by omega)]

/-- C6 witness: appending an 11th entry to a concrete full history. -/
theorem c6_bead_history_cap_witness :
    sampleBead.changes.length = 10
    ∧ (saveElementBead (some sampleBead) (sampleBeadElement ["cta"])
        "darker" "task-11" "now" false).changes
        = sampleBead.changes.drop 1 ++ [BeadEntry.mk "task-11" "darker" "now" false] :=
  ⟨by decide,
    (c6_bead_history_cap (some sampleBead) sampleBead (sampleBeadElement ["cta"])
      "darker" "task-11" "now" false).2 (by decide)⟩

/-- C7: generateElementId is a pure function of tag, class multiset, DOM id
and selector: permuting the classes array never changes the derived subject
id, because the classes are sorted before hashing. -/
theorem c7_element_id_class_perm (e1 e2 : BeadElement)
    (htag : e1.tag = e2.tag) (hid : e1.domId = e2.domId)
    (hsel : e1.selector = e2.selector) (hcls : e1.classes.Perm e2.classes) :
    generateElementId e1 = generateElementId e2 := by
  unfold generateElementId
  rw [htag, hid, hsel, jsSortStrings_perm_eq _ _ hcls]

/-- C7 witness: two descriptors differing only in class order. -/
theorem c7_element_id_class_perm_witness :
    (sampleBeadElement ["nav", "btn"]).classes.Perm
        (sampleBeadElement ["btn", "nav"]).classes
    ∧ generateElementId (sampleBeadElement ["nav", "btn"])
        = generateElementId (sampleBeadElement ["btn", "nav"]) :=
  ⟨by decide, c7_element_id_class_perm _ _ rfl rfl rfl (by decide)⟩

/-- C8 counterexample: unregisterServer deletes only the calling process
entry and performs no stale-entry sweep: with only pid 100 alive, an entry
for dead pid 200 survives the unregister operation, so it is not true that
every registry operation leaves no entry for a dead process id. -/
theorem c8_counterexample :
    (fun pid => pid == 100) 200 = false
    ∧ unregisterServer [(200, sampleServerEntry 200)] 100
        = [(200, sampleServerEntry 200)] :=
  ⟨rfl, by decide⟩

/-- C8 amended: registerServer and the /servers read prune every dead
entry and keep every live entry (registerServer replaces only the entry
under its own pid); unregisterServer removes exactly the calling process
entry and keeps every other entry, including dead ones, performing no
pruning. -/
theorem c8_registry_prune (alive : Nat → Bool) (r : Registry) (selfPid : Nat)
    (token : String) (port : Nat) (projectPath projectName startedAt : String)
    (h : alive selfPid = true) :
    (∀ p ∈ registerServer alive r selfPid token port projectPath projectName startedAt,
        alive p.1 = true)
    ∧ (∀ p ∈ r, alive p.1 = true → p.1 = selfPid
        ∨ p ∈ registerServer alive r selfPid token port projectPath projectName startedAt)
    ∧ (∀ p ∈ serversRead alive r, alive p.1 = true)
    ∧ (∀ p ∈ r, alive p.1 = true → p ∈ serversRead alive r)
    ∧ (∀ p ∈ unregisterServer r selfPid, p ∈ r ∧ p.1 ≠ selfPid)
    ∧ (∀ p ∈ r, p.1 ≠ selfPid → p ∈ unregisterServer r selfPid) := by
  unfold registerServer serversRead unregisterServer pruneStale
  refine ⟨?_, ?_, ?_, ?_, ?_, ?_⟩
  · intro p hp
    rcases mem_mapSet _ _ _ p hp with h1 | h2
    · rw [h1]
      exact h
    · have h3 := List.of_mem_filter h2
      simpa using h3
  · intro p hp halive
    by_cases hps : p.1 = selfPid
    · exact Or.inl hps
    · exact Or.inr (mem_mapSet_of_ne _ _ _ p (List.mem_filter.mpr ⟨hp, halive⟩) hps)
  · intro p hp
    have h3 := List.of_mem_filter hp
    simpa using h3
  · intro p hp halive
    exact List.mem_filter.mpr ⟨hp, halive⟩
  · intro p hp
    refine ⟨List.mem_of_mem_filter hp, ?_⟩
    have := List.of_mem_filter hp
    simpa [bne_iff_ne] using this
  · intro p hp hne
    refine List.mem_filter.mpr ⟨hp, ?_⟩
    simpa [bne_iff_ne] using hne

/-- C8 witness: pid 100 alive, pid 200 dead, concrete registry. -/
theorem c8_registry_prune_witness :
    (fun pid => pid == 100) 100 = true
    ∧ (∀ p ∈ serversRead (fun pid => pid == 100)
        [(100, sampleServerEntry 100), (200, sampleServerEntry 200)],
        (fun pid => pid == 100) p.1 = true) :=
  ⟨rfl,
    (c8_registry_prune (fun pid => pid == 100)
      [(100, sampleServerEntry 100), (200, sampleServerEntry 200)] 100
      "tok" 3847 "/tmp/proj" "proj" "t0" rfl).2.2.1⟩
